import Mathlib

/-!
Verification of the assembly-planning engine (repp/defrag) against its
natural-language specification.

The Go sources are shallowly embedded: Go `int` becomes `Int`, Go strings
become `String` (a packed `List Char`), Go `float32` cost arithmetic is
modelled over `ℚ` (the claims under scrutiny are about which branch is taken
and about order/sign facts, which real-valued rounding-monotone float
arithmetic preserves at this structural level), and process-terminating
calls (`log.Fatal`, panics) become explicit outcome constructors.
-/

namespace Repp

/-- Cost-model configuration in force for the assembly package
(`conf.Synthesis.MaxLength`, `conf.Synthesis.BPCost`, `conf.PCR.BPCost`). -/
structure Config where
  synthesisMaxLength : Int
  synthesisBPCost : ℚ
  pcrBPCost : ℚ
deriving DecidableEq

/-- Structure `node` from the assembly package: a placement of a candidate fragment on
the tripled target vector.  The `assemblies` back-pointer field is not part
of any claim and is omitted (none of the embedded functions read it). -/
structure Node where
  id : String
  uniqueID : String
  start : Int
  end_ : Int
deriving DecidableEq, Repr

/-- Function `node.distTo`: `return other.end - n.start`. -/
def Node.distTo (n : Node) (other : Node) : Int :=
  other.end_ - n.start

/-- The scanning loop inside `node.reach`, entered with the running index
already advanced past the position of `n`: at index `j`, stop when the list
is exhausted; append `nodes[j]` and continue when `n.distTo nodes[j] < -20`;
otherwise append and continue only while `synthCount > 0`, decrementing it;
otherwise stop. -/
def Node.reachFrom (n : Node) (nodes : List Node) (synthCount : Int) (j : Nat) : List Node :=
  if h : j < nodes.length then
    if n.distTo nodes[j] < -20 then
      nodes[j] :: n.reachFrom nodes synthCount (j + 1)
    else if 0 < synthCount then
      nodes[j] :: n.reachFrom nodes (synthCount - 1) (j + 1)
    else []
  else []
termination_by nodes.length - j

/-- Function `node.reach nodes i synthCount`: the Go loop first increments `i` and
then scans, so the scan proper starts at index `i + 1`. -/
def Node.reach (n : Node) (nodes : List Node) (i : Nat) (synthCount : Int) : List Node :=
  n.reachFrom nodes synthCount (i + 1)

/-- Function `node.synthDist`: `0` when the distance is not positive, else the
ceiling of the distance divided by the maximum synthesis-fragment length
(`math.Ceil(float64(dist) / float64(conf.Synthesis.MaxLength))`). -/
def Node.synthDist (conf : Config) (n : Node) (other : Node) : Int :=
  let dist := n.distTo other
  if 0 < dist then Int.ceil ((dist : ℚ) / (conf.synthesisMaxLength : ℚ))
  else 0

/-- Function `node.costTo`: `60 * conf.PCR.BPCost` when `dist < -20`, otherwise
`float32(dist) * conf.Synthesis.BPCost`. -/
def Node.costTo (conf : Config) (n : Node) (other : Node) : ℚ :=
  let dist := n.distTo other
  if dist < -20 then 60 * conf.pcrBPCost
  else (dist : ℚ) * conf.synthesisBPCost

/-- The description the spec gives of `reachableSet` as a rule on the list of
candidates after the current index: a candidate with
`distanceTo < -20` is taken for free; any other candidate is taken only by
consuming one unit of the synthesis budget; the scan stops at the first
candidate that is neither, or when the candidates run out. -/
def reachSpecScan (n : Node) : Int → List Node → List Node
  | _, [] => []
  | budget, m :: rest =>
    if n.distTo m < -20 then m :: reachSpecScan n budget rest
    else if 0 < budget then m :: reachSpecScan n (budget - 1) rest
    else []

/-- The number of integer positions shared by the inclusive spans
`[n.start, n.end]` and `[m.start, m.end]`. -/
def overlapCount (n m : Node) : Int :=
  max 0 (min n.end_ m.end_ - max n.start m.start + 1)

lemma reachFrom_eq_spec (n : Node) (nodes : List Node) :
    ∀ k j, nodes.length - j ≤ k →
      ∀ s, n.reachFrom nodes s j = reachSpecScan n s (nodes.drop j) := by
  intro k
  induction k with
  | zero =>
    intro j hj s
    have hlen : nodes.length ≤ j := by omega
    rw [Node.reachFrom, List.drop_eq_nil_of_le hlen]
    simp [reachSpecScan, Nat.not_lt.mpr hlen]
  | succ k ih =>
    intro j hj s
    by_cases h : j < nodes.length
    · have hdrop : nodes.drop j = nodes[j] :: nodes.drop (j + 1) :=
        List.drop_eq_getElem_cons h
      rw [Node.reachFrom, dif_pos h, hdrop]
      have hrec : nodes.length - (j + 1) ≤ k := by omega
      by_cases hd : n.distTo nodes[j] < -20
      · rw [if_pos hd, ih (j + 1) hrec s]
        simp only [reachSpecScan, if_pos hd]
      · by_cases hs : 0 < s
        · rw [if_neg hd, if_pos hs, ih (j + 1) hrec (s - 1)]
          simp only [reachSpecScan, if_neg hd, if_pos hs]
        · rw [if_neg hd, if_neg hs]
          simp only [reachSpecScan, if_neg hd, if_neg hs]
    · have hlen : nodes.length ≤ j := by omega
      rw [Node.reachFrom, List.drop_eq_nil_of_le hlen]
      simp [reachSpecScan, h]

/-- C1: `node.reach nodes i synthCount` realises exactly the scan the spec describes over
the candidates after index `i`: starting at index `i + 1`, a candidate with
`distanceTo(n, candidate) < -20` is included for free, any other candidate
is included only by decrementing the remaining synthesis budget, and the
scan stops at the first candidate that is neither within overlap range nor
affordable, or when the node list is exhausted. -/
theorem reach_eq_reachSpecScan (n : Node) (nodes : List Node) (i : Nat) (synthCount : Int) :
    n.reach nodes i synthCount = reachSpecScan n synthCount (nodes.drop (i + 1)) :=
  reachFrom_eq_spec n nodes (nodes.length - (i + 1)) (i + 1) le_rfl synthCount

/-- C2: `costTo` is the fixed PCR cost `60 * conf.PCR.BPCost` whenever
`distTo < -20` and `dist * conf.Synthesis.BPCost` otherwise; hence it is
constant across all pairs deeper than the 20-base overlap threshold, and
(for a non-negative configured synthesis cost) monotonically non-decreasing
in the gap length across pairs whose gap requires synthesis. -/
theorem costTo_spec (conf : Config) (n m : Node) :
    (n.distTo m < -20 → Node.costTo conf n m = 60 * conf.pcrBPCost) ∧
    (-20 ≤ n.distTo m → Node.costTo conf n m = (n.distTo m : ℚ) * conf.synthesisBPCost) ∧
    (∀ n2 m2, n.distTo m < -20 → n2.distTo m2 < -20 →
      Node.costTo conf n m = Node.costTo conf n2 m2) ∧
    (∀ n2 m2, 0 ≤ conf.synthesisBPCost → 0 < n.distTo m → n.distTo m ≤ n2.distTo m2 →
      Node.costTo conf n m ≤ Node.costTo conf n2 m2) := by
  refine ⟨fun h => by simp [Node.costTo, h], fun h => by simp [Node.costTo, not_lt.mpr h], ?_, ?_⟩
  · intro n2 m2 h1 h2
    simp [Node.costTo, h1, h2]
  · intro n2 m2 hc h1 h2
    have hn1 : ¬ n.distTo m < -20 := by omega
    have hn2 : ¬ n2.distTo m2 < -20 := by omega
    simp only [Node.costTo, if_neg hn1, if_neg hn2]
    have hcast : (n.distTo m : ℚ) ≤ (n2.distTo m2 : ℚ) := by exact_mod_cast h2
    exact mul_le_mul_of_nonneg_right hcast hc

/-- Witness for C2 at concrete inputs: a 50-base overlap pair pays the
fixed PCR cost, and a 5-base gap costs no more than a 9-base gap. -/
theorem costTo_spec_witness :
    Node.costTo ⟨100, 2, 3⟩ ⟨"a", "a", 100, 120⟩ ⟨"b", "b", 30, 50⟩ = 60 * (3 : ℚ) ∧
    Node.costTo ⟨100, 2, 3⟩ ⟨"a", "a", 100, 120⟩ ⟨"c", "c", 90, 105⟩ ≤
      Node.costTo ⟨100, 2, 3⟩ ⟨"a", "a", 100, 120⟩ ⟨"d", "d", 95, 109⟩ := by
  constructor
  · exact (costTo_spec ⟨100, 2, 3⟩ ⟨"a", "a", 100, 120⟩ ⟨"b", "b", 30, 50⟩).1 (by decide)
  · exact (costTo_spec ⟨100, 2, 3⟩ ⟨"a", "a", 100, 120⟩ ⟨"c", "c", 90, 105⟩).2.2.2
      ⟨"a", "a", 100, 120⟩ ⟨"d", "d", 95, 109⟩ (by norm_num) (by decide) (by decide)

/-- C3: `synthDist` is `0` when the two nodes already overlap
(`distTo ≤ 0`) and otherwise the ceiling of the gap divided by the maximum
synthesis-fragment length; in particular a gap of 3.5 times the maximum
synthesis length needs exactly 4 synthetic bridging fragments. -/
theorem synthDist_spec (conf : Config) (n m : Node) (hL : 0 < conf.synthesisMaxLength) :
    (n.distTo m ≤ 0 → Node.synthDist conf n m = 0) ∧
    (0 < n.distTo m →
      Node.synthDist conf n m = Int.ceil ((n.distTo m : ℚ) / (conf.synthesisMaxLength : ℚ))) ∧
    (2 * n.distTo m = 7 * conf.synthesisMaxLength → Node.synthDist conf n m = 4) := by
  refine ⟨fun h => by simp [Node.synthDist, not_lt.mpr h], fun h => by simp [Node.synthDist, h], ?_⟩
  intro h7
  have hpos : 0 < n.distTo m := by nlinarith
  have hL0 : (conf.synthesisMaxLength : ℚ) ≠ 0 := by exact_mod_cast hL.ne'
  have hq : (n.distTo m : ℚ) / (conf.synthesisMaxLength : ℚ) = 7 / 2 := by
    have h7q : (2 : ℚ) * (n.distTo m : ℚ) = 7 * (conf.synthesisMaxLength : ℚ) := by
      exact_mod_cast h7
    field_simp
    linarith
  rw [Node.synthDist]
  simp only [if_pos hpos]
  rw [hq, Int.ceil_eq_iff]
  norm_num

/-- Witness for C3 at a concrete input: maximum synthesis length 2 and a
gap of 7 (3.5 times the maximum) give 4 bridging fragments. -/
theorem synthDist_spec_witness :
    Node.synthDist ⟨2, 1, 1⟩ ⟨"a", "a", 0, 10⟩ ⟨"b", "b", 12, 7⟩ = 4 :=
  (synthDist_spec ⟨2, 1, 1⟩ ⟨"a", "a", 0, 10⟩ ⟨"b", "b", 12, 7⟩ (by decide)).2.2 (by decide)

/-- C4 (code bug, evaluated at the failing input): with
`n = (start 10, end 20)` and `m = (start 0, end 5)` — `m` starting before
`n` as the doc comment of `distTo` assumes — the computed
`distTo(n, m) = m.end - n.start` is `-5`, negative, yet the inclusive spans
`[10, 20]` and `[0, 5]` share `0` positions, not `-distTo = 5`: the
implementation inverts the documented "negative means overlap" sign
convention, so a negative distance never comes with shared bases. -/
theorem distTo_sign_convention_bug :
    Node.distTo ⟨"n", "n", 10, 20⟩ ⟨"m", "m", 0, 5⟩ = -5 ∧
    overlapCount ⟨"n", "n", 10, 20⟩ ⟨"m", "m", 0, 5⟩ = 0 ∧
    (⟨"m", "m", 0, 5⟩ : Node).start ≤ (⟨"n", "n", 10, 20⟩ : Node).start := by
  refine ⟨by decide, by decide, by decide⟩

/-- C10: for a pair inside the 0-to-20-base existing-overlap band
(`-20 ≤ distTo ≤ 0`) and a positive configured synthetic per-base cost,
`costTo` is computed on the synthesis branch as `distTo * BPCost`, which is
non-positive and strictly negative as soon as the overlap is non-zero:
`costTo` does not guarantee a non-negative cost. -/
theorem costTo_overlap_nonpositive (conf : Config) (n m : Node)
    (h1 : -20 ≤ n.distTo m) (h2 : n.distTo m ≤ 0) (hc : 0 < conf.synthesisBPCost) :
    Node.costTo conf n m = (n.distTo m : ℚ) * conf.synthesisBPCost ∧
    Node.costTo conf n m ≤ 0 ∧
    (n.distTo m < 0 → Node.costTo conf n m < 0) := by
  have hbr : Node.costTo conf n m = (n.distTo m : ℚ) * conf.synthesisBPCost := by
    simp [Node.costTo, show ¬ n.distTo m < -20 by omega]
  refine ⟨hbr, ?_, ?_⟩
  · rw [hbr]
    have hd : (n.distTo m : ℚ) ≤ 0 := by exact_mod_cast h2
    nlinarith
  · intro hneg
    rw [hbr]
    have hd : (n.distTo m : ℚ) < 0 := by exact_mod_cast hneg
    nlinarith

/-- The valid characters of a recognition sequence: the regular expression
in `EnzymeDB.SetCmd` deletes every character outside
`ATGCMRWYSKHDVBNX_^`. -/
def validRecogChar (c : Char) : Bool :=
  "ATGCMRWYSKHDVBNX_^".data.contains c

/-- Go `strings.ToUpper` on an ASCII recognition sequence: uppercase each
character. -/
def toUpperGo (s : String) : String :=
  String.mk (s.data.map Char.toUpper)

/-- The sanitisation performed by `EnzymeDB.SetCmd` before validation:
`seq = strings.ToUpper(seq)` followed by deletion of every invalid
character. -/
def sanitizeRecog (seq : String) : String :=
  String.mk ((toUpperGo seq).data.filter validRecogChar)

/-- Go `strings.Split(line, "\t")[0]`: the prefix of the record line up to the
first tab (the whole line when it has no tab). -/
def firstColumn (line : String) : String :=
  String.mk (line.data.takeWhile (fun c => !(c == '\t')))

/-- The record name used by `EnzymeDB.SetCmd`: `args[0]`, or all but the
last argument joined by spaces when more than two arguments are given. -/
def enzymeSetName (args : List String) : String :=
  if 2 < args.length then " ".intercalate args.dropLast else args.headD ""

/-- The raw recognition sequence used by `EnzymeDB.SetCmd`: `args[1]`, or
the last argument when more than two arguments are given. -/
def enzymeSetRawSeq (args : List String) : String :=
  if 2 < args.length then args.getLastD "" else (args.get? 1).getD ""

/-- The scanner loop of `EnzymeDB.SetCmd` over the store file lines: a line
whose first column equals the name is replaced by the new record (with a
trailing newline) and marks `updated`; any other line is written back via
`output.WriteString(scanner.Text())` — with no newline appended. -/
def setScan (lines : List String) (name seq : String) : String × Bool :=
  lines.foldl
    (fun acc line =>
      if firstColumn line = name then (acc.1 ++ name ++ "\t" ++ seq ++ "\n", true)
      else (acc.1 ++ line, acc.2))
    ("", false)

/-- The full store-file rewrite of `EnzymeDB.SetCmd`: the scanned output,
with the new record appended when no existing line matched the name. -/
def rewriteSetFile (lines : List String) (name seq : String) : String :=
  let scanned := setScan lines name seq
  if scanned.2 then scanned.1 else scanned.1 ++ name ++ "\t" ++ seq ++ "\n"

/-- The store-file rewrite of `EnzymeDB.DeleteCmd`: every line whose first
column differs from the name is written back via
`output.WriteString(scanner.Text())` — again with no newline appended —
and matching lines are dropped. -/
def rewriteDeleteFile (lines : List String) (name : String) : String :=
  lines.foldl
    (fun acc line => if firstColumn line = name then acc else acc ++ line)
    ""

/-- Result of `EnzymeDB.SetCmd`: the Go code exits the process on a usage
error or an invalid recognition sequence (both before the store file is
opened), and otherwise rewrites the store file. -/
inductive SetOutcome
| usageExit (msg : String)
| invalidExit (msg : String)
| written (file : String)
deriving DecidableEq

/-- Function `EnzymeDB.SetCmd`: argument handling, uppercase-and-filter
sanitisation, the exactly-one-of-each cut-marker validation, and the store
rewrite, in the order of the Go code. -/
def EnzymeDB.SetCmd (args : List String) (lines : List String) : SetOutcome :=
  if args.length < 2 then
    .usageExit "expecting two args: a name and recognition sequence."
  else
    let name := enzymeSetName args
    let seq := sanitizeRecog (enzymeSetRawSeq args)
    if seq.data.count '^' ≠ 1 ∨ seq.data.count '_' ≠ 1 then
      .invalidExit (seq ++ " is not a valid enzyme recognition sequence")
    else
      .written (rewriteSetFile lines name seq)

/-- C6: with at least two arguments, `EnzymeDB.SetCmd` rejects — exiting
before any write to the enzyme store — exactly those recognition sequences
whose sanitised form (uppercased, invalid characters removed) does not
contain exactly one caret and exactly one underscore cut marker, and
accepts and writes a sequence with exactly one of each. -/
theorem setCmd_validation (args lines : List String) (h2 : 2 ≤ args.length) :
    ((sanitizeRecog (enzymeSetRawSeq args)).data.count '^' ≠ 1 ∨
        (sanitizeRecog (enzymeSetRawSeq args)).data.count '_' ≠ 1 →
      EnzymeDB.SetCmd args lines =
        .invalidExit
          (sanitizeRecog (enzymeSetRawSeq args) ++
            " is not a valid enzyme recognition sequence")) ∧
    ((sanitizeRecog (enzymeSetRawSeq args)).data.count '^' = 1 →
      (sanitizeRecog (enzymeSetRawSeq args)).data.count '_' = 1 →
      EnzymeDB.SetCmd args lines =
        .written
          (rewriteSetFile lines (enzymeSetName args)
            (sanitizeRecog (enzymeSetRawSeq args)))) := by
  constructor
  · intro h
    simp only [EnzymeDB.SetCmd, if_neg (by omega : ¬ args.length < 2), if_pos h]
  · intro ha hb
    have hn : ¬ ((sanitizeRecog (enzymeSetRawSeq args)).data.count '^' ≠ 1 ∨
        (sanitizeRecog (enzymeSetRawSeq args)).data.count '_' ≠ 1) :=
      not_or.mpr ⟨not_not_intro ha, not_not_intro hb⟩
    simp only [EnzymeDB.SetCmd, if_neg (by omega : ¬ args.length < 2), if_neg hn]

/-- Witness for C6 at concrete inputs: `cc^tca_gc` (one marker of each
kind, supplied lowercase) is accepted and written, while `CCTCAGC` (zero
markers) is rejected before the store is touched. -/
theorem setCmd_validation_witness :
    EnzymeDB.SetCmd ["BbvCI", "cc^tca_gc"] ["AatII\tGACGT^C_"] =
      SetOutcome.written "AatII\tGACGT^C_BbvCI\tCC^TCA_GC\n" ∧
    EnzymeDB.SetCmd ["x", "CCTCAGC"] ["AatII\tGACGT^C_"] =
      SetOutcome.invalidExit "CCTCAGC is not a valid enzyme recognition sequence" := by
  constructor
  · rw [(setCmd_validation ["BbvCI", "cc^tca_gc"] ["AatII\tGACGT^C_"] (by decide)).2
      (by decide) (by decide)]
    decide
  · rw [(setCmd_validation ["x", "CCTCAGC"] ["AatII\tGACGT^C_"] (by decide)).1 (by decide)]
    decide

/-- C9 (code bug, evaluated at the failing input): rewriting a two-record
store with a new record merges all three records onto a single line (the
preserved lines are written back without their newlines), and deleting the
middle record of a three-record store likewise merges the two survivors;
the rewritten file is no longer a newline-delimited record list — the
`rewriteSetFile` output holds its three records on one line followed only
by the final newline of the new record. -/
theorem enzymeStore_rewrite_drops_newlines :
    rewriteSetFile ["a\tAAA", "b\tCCC"] "c" "CC^TCA_GC" = "a\tAAAb\tCCCc\tCC^TCA_GC\n" ∧
    (rewriteSetFile ["a\tAAA", "b\tCCC"] "c" "CC^TCA_GC").data.count '\n' = 1 ∧
    rewriteDeleteFile ["a\tAAA", "b\tCCC", "c\tGGG"] "b" = "a\tAAAc\tGGG" := by
  refine ⟨by decide, by decide, by decide⟩

/-- A `Frag` as used by `digest` and the entry points; the fields beyond
`ID`, `Seq` and `db` (primers, start/end, type, configuration) are not read
by any embedded function and are omitted. -/
structure Frag where
  ID : String
  Seq : String
  db : String
deriving DecidableEq

/-- Structure `enzyme`: a recognition sequence with one cut index per strand. -/
structure Enzyme where
  name : String
  recog : String
  seqCutIndex : Int
  compCutIndex : Int
deriving DecidableEq

/-- Go `strings.Index(s, c)`: index of the first occurrence, `-1` when
absent. -/
def goIndexOf (s : String) (c : Char) : Int :=
  match s.data.findIdx? (fun x => x = c) with
  | some i => (i : Int)
  | none => -1

/-- Function `newEnzyme`: read both cut-marker positions, shift whichever marker
comes second left by one (it is displaced by the other marker), and strip
both markers from the recognition sequence. -/
def newEnzyme (recogSeq : String) : Enzyme :=
  let cutIndex := goIndexOf recogSeq '^'
  let hangIndex := goIndexOf recogSeq '_'
  let cutIndex2 := if cutIndex < hangIndex then cutIndex else cutIndex - 1
  let hangIndex2 := if cutIndex < hangIndex then hangIndex - 1 else hangIndex
  { name := ""
    recog := String.mk (recogSeq.data.filter (fun c => !(c == '^') && !(c == '_')))
    seqCutIndex := cutIndex2
    compCutIndex := hangIndex2 }

/-- Modelled from the spec: `reverseComplement` is called by `digest` but
its definition is not among the provided sources; per the glossary and
standard usage it reverses the sequence and complements each base
(`A`↔`T`, `C`↔`G`). -/
def complementChar (c : Char) : Char :=
  if c = 'A' then 'T'
  else if c = 'T' then 'A'
  else if c = 'C' then 'G'
  else if c = 'G' then 'C'
  else c

/-- Modelled from the spec: reverse complement of a sequence. -/
def reverseComplement (s : List Char) : List Char :=
  s.reverse.map complementChar

/-- The per-character decoding table of `recogRegex`: an IUPAC code maps to
its character class; a character outside the table contributes the empty
string to the regular expression (so it constrains nothing and is dropped
from the concatenated pattern). -/
def regexDecodeClass (c : Char) : Option (List Char) :=
  if c = 'A' then some ['A']
  else if c = 'C' then some ['C']
  else if c = 'G' then some ['G']
  else if c = 'T' then some ['T']
  else if c = 'M' then some ['A', 'C']
  else if c = 'R' then some ['A', 'G']
  else if c = 'W' then some ['A', 'T']
  else if c = 'Y' then some ['C', 'T']
  else if c = 'S' then some ['C', 'G']
  else if c = 'K' then some ['G', 'T']
  else if c = 'H' then some ['A', 'C', 'T']
  else if c = 'D' then some ['A', 'G', 'T']
  else if c = 'V' then some ['A', 'C', 'G']
  else if c = 'B' then some ['C', 'G', 'T']
  else if c = 'N' then some ['A', 'C', 'G', 'T']
  else if c = 'X' then some ['A', 'C', 'G', 'T']
  else none

/-- The concatenated character-class pattern produced by `recogRegex`. -/
def recogPattern (recog : String) : List (List Char) :=
  recog.data.filterMap regexDecodeClass

/-- Whether the pattern matches the sequence starting at position `k`. -/
def patMatchesAt (pat : List (List Char)) (s : List Char) (k : Nat) : Bool :=
  k + pat.length ≤ s.length &&
    ((pat.zip ((s.drop k).take pat.length)).all (fun pc => pc.1.contains pc.2))

/-- Go `regexp.FindStringIndex`: the position of the leftmost match, if any
(`MatchString` is its non-emptiness). -/
def findFirstMatch (pat : List (List Char)) (s : List Char) : Option Nat :=
  (List.range (s.length + 1)).find? (fun k => patMatchesAt pat s k)

/-- Go `%` on integers (truncated division remainder): the result takes
the sign of the dividend, unlike `Int.emod`. -/
def goMod (a b : Int) : Int :=
  if 0 ≤ a then a.emod b else -((-a).emod b)

/-- The de-doubling step of `digest`: when the first half of the sequence
equals the second half the stored sequence is a doubled circular artifact
and is replaced by its first half. -/
def dedouble (s : List Char) : List Char :=
  if s.take (s.length / 2) = s.drop (s.length / 2) then s.take (s.length / 2) else s

/-- The sequence `digest` scans for cut sites: the stored sequence after
the de-doubling step. -/
def digestBaseSeq (frag : Frag) : List Char :=
  dedouble frag.Seq.data

/-- Result of `digest`.  `sliceOutOfRange` is the run-time panic Go raises
at `frag.Seq[0:wrappedBp]` when the de-doubled sequence is shorter than the
38-base wrap window; the `ok` payload is the digested fragment together
with the recognition index and strand recorded in the `Backbone` value
(the backbone URL comes from `parseURL`, which is outside the provided
sources and outside every claim). -/
inductive DigestOutcome
| tooShort (msg : String)
| sliceOutOfRange
| noCutsite (msg : String)
| ok (digested : Frag) (recognitionIndex : Int) (fwd : Bool)
deriving DecidableEq

/-- The tail of `digest` once a recognition index is fixed: rotate the
sequence at the cut position(s) according to the sign of the overhang
length.  The modular indices are non-negative for any enzyme built from a
validated recognition sequence, so `Int.toNat` is exact there. -/
def digestCut (frag : Frag) (s : List Char) (enz : Enzyme) (recogIndex : Int)
    (fwd : Bool) : DigestOutcome :=
  let overhangLength := enz.seqCutIndex - enz.compCutIndex
  if 0 ≤ overhangLength then
    let cutIndex := (goMod (recogIndex + enz.seqCutIndex) s.length).toNat
    .ok ⟨frag.ID, String.mk (s.drop cutIndex ++ s.take cutIndex), frag.db⟩ recogIndex fwd
  else
    let bottomIndex := (goMod (recogIndex + enz.seqCutIndex) s.length).toNat
    let topIndex := (goMod (recogIndex + enz.compCutIndex) s.length).toNat
    .ok ⟨frag.ID, String.mk (s.drop topIndex ++ s.take bottomIndex), frag.db⟩ recogIndex fwd

/-- Function `digest`: reject sequences shorter than the 38-base wrap window,
de-double doubled circular sequences, extend the sequence by its first 38
bases to cover the origin wrap (a run-time slice panic when the de-doubled
sequence is by then shorter than 38), scan the extended sequence and then
the reverse-complement strand for the first recognition match, and cut. -/
def digest (frag : Frag) (enz : Enzyme) : DigestOutcome :=
  let wrappedBp : Nat := 38
  if frag.Seq.length < wrappedBp then
    .tooShort (frag.ID ++ " is too short for digestion")
  else
    let s := digestBaseSeq frag
    if s.length < wrappedBp then .sliceOutOfRange
    else
      let seq := s ++ s.take wrappedBp
      let revCompSeq := reverseComplement s ++ reverseComplement (s.take wrappedBp)
      let pat := recogPattern enz.recog
      match findFirstMatch pat seq with
      | some idx => digestCut frag s enz (idx : Int) true
      | none =>
        match findFirstMatch pat revCompSeq with
        | some revIdx0 =>
          let revIdx1 : Int := (s.length : Int) - (revIdx0 : Int) - (enz.recog.length : Int)
          let revIdx2 : Int := goMod (revIdx1 + (s.length : Int)) (s.length : Int)
          if 0 ≤ revIdx2 then digestCut frag s enz revIdx2 false
          else .noCutsite ("no " ++ enz.recog ++ " cutsites found in " ++ frag.ID)
        | none => .noCutsite ("no " ++ enz.recog ++ " cutsites found in " ++ frag.ID)

/-- C7 (code bug, evaluated at the failing input): a 38-base fragment whose
sequence is a doubled 19-base repeat passes the too-short check and is then
de-doubled to 19 bases, upon which `frag.Seq[0:38]` raises a slice-bounds
panic — the enzyme `A^A_` matches this all-`A` sequence, so the claim would
have `digest` return a digested fragment and no error, but it returns
neither. -/
theorem digest_panics_on_dedoubled_short :
    digest ⟨"bb", String.mk (List.replicate 38 'A'), ""⟩ (newEnzyme "A^A_") =
      DigestOutcome.sliceOutOfRange ∧
    ¬ (String.mk (List.replicate 38 'A')).length < 38 := by
  refine ⟨by decide, by decide⟩

/-- C8: for a fragment long enough to be digested whose stored sequence is
a doubled repeat (first half equals second half), the sequence `digest`
subsequently scans is exactly the first half, of length half the stored
length. -/
theorem digestBaseSeq_dedoubles (frag : Frag)
    (h : frag.Seq.data.take (frag.Seq.data.length / 2) =
      frag.Seq.data.drop (frag.Seq.data.length / 2))
    (h38 : 38 ≤ frag.Seq.length) :
    digestBaseSeq frag = frag.Seq.data.take (frag.Seq.data.length / 2) ∧
    2 * (digestBaseSeq frag).length = frag.Seq.length := by
  have hd : digestBaseSeq frag = frag.Seq.data.take (frag.Seq.data.length / 2) := by
    unfold digestBaseSeq dedouble
    rw [if_pos h]
  refine ⟨hd, ?_⟩
  have hlen := congrArg List.length h
  simp only [List.length_take, List.length_drop] at hlen
  rw [hd]
  have htake : (frag.Seq.data.take (frag.Seq.data.length / 2)).length =
      frag.Seq.data.length / 2 := by
    simp [List.length_take]
    omega
  rw [htake]
  have hs : frag.Seq.length = frag.Seq.data.length := rfl
  omega

/-- Witness for C8 at a concrete input: a 40-base fragment storing a
doubled 20-base repeat is de-doubled to its 20-base first half. -/
theorem digestBaseSeq_dedoubles_witness :
    digestBaseSeq ⟨"bb", "ACGTACGTACGTACGTACGTACGTACGTACGTACGTACGT", ""⟩ =
      "ACGTACGTACGTACGTACGT".data ∧
    2 * (digestBaseSeq ⟨"bb", "ACGTACGTACGTACGTACGTACGTACGTACGTACGTACGT", ""⟩).length = 40 := by
  have h := digestBaseSeq_dedoubles ⟨"bb", "ACGTACGTACGTACGTACGTACGTACGTACGTACGTACGT", ""⟩
    (by decide) (by decide)
  constructor
  · rw [h.1]
    decide
  · exact h.2.trans (by decide)

/-- Witness for C10 at a concrete input: a 5-base overlap with per-base
synthesis cost 2 yields cost `-10 < 0`. -/
theorem costTo_overlap_nonpositive_witness :
    Node.costTo ⟨100, 2, 3⟩ ⟨"a", "a", 100, 120⟩ ⟨"b", "b", 80, 95⟩ = ((-5 : Int) : ℚ) * 2 ∧
    Node.costTo ⟨100, 2, 3⟩ ⟨"a", "a", 100, 120⟩ ⟨"b", "b", 80, 95⟩ < 0 := by
  have h := costTo_overlap_nonpositive ⟨100, 2, 3⟩ ⟨"a", "a", 100, 120⟩ ⟨"b", "b", 80, 95⟩
    (by decide) (by decide) (by norm_num)
  exact ⟨h.1, h.2.2 (by decide)⟩

/-- The results of the collaborator calls made by `Execute`, in the order the code
makes them: the four cobra flag reads, `Read(in)`, `getDBs`, `BLAST`, and
the `filepath.IsAbs`/`filepath.Abs` pair for the output path.  Passing
these results as inputs embeds the control flow of the entry point without
performing I/O. -/
structure ExecEnv where
  inFlag : Except String String
  outFlag : Except String String
  dbsFlag : Except String String
  addgeneFlag : Except String Bool
  readRes : Except String (List Frag)
  dbPathsRes : Except String (List String)
  blastRes : Except String (List String)
  outIsAbs : Bool
  absRes : Except String String

/-- How `Execute` ends: a `log.Fatalf`/`log.Fatal` call (which exits the
process), a run-time panic (`fragments[0]` on an empty slice, which also
kills the process), or reaching `Write`.  The `Assemble` result written
out is not part of the provided sources and not part of the claim, so the
`wrote` payload records the output path and target fragment only. -/
inductive ExecOutcome
| fatalLog (msg : String)
| panicIndexOutOfRange
| wrote (path : String) (targetID : String)
deriving DecidableEq

/-- Function `Execute` from exec.go: each failed collaborator result is answered
with `log.Fatal`, an empty fragment list panics at `fragments[0]`, and
only a fully successful run reaches `Write`. -/
def Execute (x : ExecEnv) : ExecOutcome :=
  match x.inFlag with
  | .error e => .fatalLog ("Cannot parse an input path from args: " ++ e)
  | .ok inPath =>
    match x.outFlag with
    | .error e => .fatalLog ("Cannot parse an output path from args: " ++ e)
    | .ok outPath =>
      match x.dbsFlag with
      | .error e => .fatalLog e
      | .ok _dbs =>
        match x.addgeneFlag with
        | .error e => .fatalLog e
        | .ok _addgene =>
          if inPath = "" then .fatalLog "Failed: no input file name set"
          else
            match x.readRes with
            | .error e =>
              .fatalLog ("Failed to read in fasta files at " ++ inPath ++ ": " ++ e)
            | .ok fragments =>
              match fragments with
              | [] => .panicIndexOutOfRange
              | targetFrag :: _ =>
                match x.dbPathsRes with
                | .error e => .fatalLog ("Failed to find a fragment database: " ++ e)
                | .ok _dbPaths =>
                  match x.blastRes with
                  | .error e =>
                    .fatalLog
                      ("Failed to blast " ++ targetFrag.ID ++ " against the BLAST DB: " ++ e)
                  | .ok _matches =>
                    if x.outIsAbs then .wrote outPath targetFrag.ID
                    else
                      match x.absRes with
                      | .error e => .fatalLog ("Failed to make output path absolute: " ++ e)
                      | .ok absOut => .wrote absOut targetFrag.ID

/-- How `assembleFragments` ends: `log.Fatalln` on an empty input list,
`log.Fatalf` when `assembly.fill` fails, or the assembled target vector
with the filled fragments. -/
inductive AssembleFragsOutcome
| fatalLog (msg : String)
| ok (targetSeq : String) (fragments : List Frag)
deriving DecidableEq

/-- The vector-sequence accumulation loop of `assembleFragments`: each
fragment contributes its sequence minus the junction it shares with its
successor (wrapping around to the first fragment).  The `junction` method
lives outside the provided sources and is a parameter; the junction a
fragment shares with its successor is a suffix of it, so the truncated
`Nat` subtraction agrees with Go. -/
def assembledVectorSeq (frags : List Frag) (junc : Frag → Frag → String) : String :=
  String.join ((List.range frags.length).map fun i =>
    let n := frags.getD i ⟨"", "", ""⟩
    let nxt := frags.getD ((i + 1) % frags.length) ⟨"", "", ""⟩
    String.mk (n.Seq.data.take (n.Seq.data.length - (junc n nxt).length)))

/-- Function `assembleFragments` from fragments.go, with the two collaborators that
are outside the provided sources — the `junction` method and
`assembly.fill` — passed as parameters: an empty input list and a failed
fill are both answered with `log.Fatal`. -/
def assembleFragments (inputFragments : List Frag) (junc : Frag → Frag → String)
    (fill : String → Except String (List Frag)) : AssembleFragsOutcome :=
  if inputFragments.length < 1 then .fatalLog "failed: no fragments to assemble"
  else
    let targetSeq := assembledVectorSeq inputFragments junc
    match fill targetSeq with
    | .error e => .fatalLog ("failed to fill in the nodes: " ++ e)
    | .ok fragments => .ok targetSeq fragments

/-- Whether an `Execute` outcome terminated the process instead of
handing a result back. -/
def terminatesProcess : ExecOutcome → Bool
  | .wrote _ _ => false
  | _ => true

/-- Whether an `assembleFragments` outcome terminated the process. -/
def assembleTerminates : AssembleFragsOutcome → Bool
  | .ok _ _ => false
  | _ => true

/-- C5 fails on the code (counterexample at a concrete input): with every
flag readable but an unreadable input path, `Execute` calls `log.Fatalf`
and terminates the process instead of returning a structured error to the
caller. -/
theorem execute_never_terminates_counterexample :
    Execute ⟨.ok "t.fa", .ok "out.json", .ok "db", .ok false,
        .error "no such file or directory", .ok [], .ok [], true, .ok ""⟩ =
      ExecOutcome.fatalLog
        "Failed to read in fasta files at t.fa: no such file or directory" ∧
    terminatesProcess
      (Execute ⟨.ok "t.fa", .ok "out.json", .ok "db", .ok false,
        .error "no such file or directory", .ok [], .ok [], true, .ok ""⟩) = true := by
  exact ⟨rfl, rfl⟩

/-- C5 as amended: the entry points answer an unreadable input path, an
empty fragment list, a failed database lookup and a failed fill by
terminating the process (`log.Fatal`, or a panic at `fragments[0]`),
rather than returning structured errors. -/
theorem entryPoints_terminate_on_failure :
    Execute ⟨.ok "t.fa", .ok "out.json", .ok "db", .ok false,
        .error "no such file or directory", .ok [], .ok [], true, .ok ""⟩ =
      ExecOutcome.fatalLog
        "Failed to read in fasta files at t.fa: no such file or directory" ∧
    Execute ⟨.ok "t.fa", .ok "out.json", .ok "db", .ok false,
        .ok [⟨"t", "ACGT", ""⟩], .error "no BLAST databases found", .ok [], true, .ok ""⟩ =
      ExecOutcome.fatalLog "Failed to find a fragment database: no BLAST databases found" ∧
    Execute ⟨.ok "t.fa", .ok "out.json", .ok "db", .ok false,
        .ok [], .ok [], .ok [], true, .ok ""⟩ = ExecOutcome.panicIndexOutOfRange ∧
    assembleFragments [] (fun _ _ => "") (fun _ => .ok []) =
      AssembleFragsOutcome.fatalLog "failed: no fragments to assemble" ∧
    assembleFragments [⟨"f1", "ACGT", ""⟩] (fun _ _ => "")
        (fun _ => .error "primer design failed") =
      AssembleFragsOutcome.fatalLog "failed to fill in the nodes: primer design failed" := by
  exact ⟨rfl, rfl, rfl, rfl, rfl⟩

end Repp
